import Mathlib

/-!
Verification of the Pascal recursive-descent parser (pascal/parsers.py).

The parser is embedded shallowly: the lexer boundary is a list of tokens;
the mutable pair (lexer cursor, current lookahead) of the Python class is
the suffix of that list that has not been consumed yet, whose head is the
current lookahead token.  Each grammar-rule method becomes a function
List Token -> Except PErr (result x List Token).  The mutually recursive
rules carry a Nat fuel argument, decremented on every rule-to-rule call,
so that all definitions are structurally recursive and computable; fuel
exhaustion is a distinct error from the syntax error the code raises.
Python while-loops become recursive loop helpers (exprLoop, termLoop,
stmtListLoop, varDeclLoop, procLoop, commaLoop).
-/

/-- Token kinds, from pascal.constants as used by the parser. -/
inductive TT where
  | PROGRAM | VAR | PROCEDURE | ID
  | INTEGER | REAL | INTEGER_CONST | REAL_CONST
  | ASSIGN | PLUS | MINUS | MUL | INTEGER_DIV | FLOAT_DIV
  | LPAREN | RPAREN | COMMA | COLON | SEMI | DOT
  | BEGIN | END | EOF
deriving DecidableEq, Repr

/-- Token payloads: numeric literals carry an integer, identifiers carry
their text, punctuation and keywords carry nothing. -/
inductive Val where
  | intV (n : Int)
  | strV (s : String)
  | noneV
deriving DecidableEq, Repr

/-- A token: a kind tag plus an optional payload (token.type, token.value). -/
structure Token where
  type : TT
  value : Val
deriving DecidableEq, Repr

/-- AST node variants, one constructor per Python AST subclass.  The Python
class Type is named TypeNode here and Program is a constructor of AST. -/
inductive AST where
  | NoOp
  | Num (token : Token)
  | UnaryOp (op : Token) (expr : AST)
  | BinOp (left : AST) (op : Token) (right : AST)
  | Var (token : Token)
  | Assign (left : AST) (op : Token) (right : AST)
  | Compound (children : List AST)
  | TypeNode (token : Token)
  | VarDecl (var_node : AST) (type_node : AST)
  | ProcedureDecl (name : Val) (block : AST)
  | Block (declarations : List AST) (compound_statement : AST)
  | Program (name : Val) (block : AST)
deriving Repr

/-- Parse outcome errors: the single Invalid-syntax exception of the code,
plus fuel exhaustion of the embedding. -/
inductive PErr where
  | invalid
  | noFuel
deriving DecidableEq, Repr

/-- Parser.eat: if the current lookahead (the head of the stream) has the
requested kind, advance past it; otherwise raise the syntax error. -/
def eat (token_type : TT) : List Token → Except PErr (List Token)
  | t :: ts => if t.type = token_type then .ok ts else .error .invalid
  | [] => .error .invalid

/-- True when the head of the stream has the given kind. -/
def peekIs (tt : TT) : List Token → Bool
  | t :: _ => if t.type = tt then true else false
  | [] => false

/-- Parser.variable: build Var from the current token, then eat ID.
(Named variableR because variable is a Lean keyword.) -/
def variableR : List Token → Except PErr (AST × List Token)
  | t :: ts =>
    match eat .ID (t :: ts) with
    | .ok ts1 => .ok (.Var t, ts1)
    | .error e => .error e
  | [] => .error .invalid

/-- Parser.empty: the empty production, returns NoOp and consumes nothing. -/
def empty : AST := .NoOp

/-- Parser.type_spec: INTEGER or REAL keyword to a TypeNode built from the
saved current token; a non-INTEGER lookahead goes to the eat REAL branch. -/
def type_spec : List Token → Except PErr (AST × List Token)
  | t :: ts =>
    if t.type = .INTEGER then
      match eat .INTEGER (t :: ts) with
      | .ok ts1 => .ok (.TypeNode t, ts1)
      | .error e => .error e
    else
      match eat .REAL (t :: ts) with
      | .ok ts1 => .ok (.TypeNode t, ts1)
      | .error e => .error e
  | [] => .error .invalid

/-- The while-COMMA loop of Parser.variable_declaration: while the lookahead
is a comma, eat it, record Var of the new lookahead, and eat ID.  The eat of
ID is inlined as the test on u so the recursion is structural on the list. -/
def commaLoop : List Token → Except PErr (List AST × List Token)
  | t :: ts =>
    if t.type = .COMMA then
      match ts with
      | u :: ts1 =>
        if u.type = .ID then
          match commaLoop ts1 with
          | .ok (vs, ts2) => .ok (AST.Var u :: vs, ts2)
          | .error e => .error e
        else .error .invalid
      | [] => .error .invalid
    else .ok ([], t :: ts)
  | [] => .ok ([], [])

/-- Parser.variable_declaration: a first identifier (Var of the current
token, then eat ID, here inlined as the test on t), the comma loop, a colon,
a type_spec, and one VarDecl per collected Var, all sharing type_node. -/
def variable_declaration : List Token → Except PErr (List AST × List Token)
  | t :: ts =>
    if t.type = .ID then
      match commaLoop ts with
      | .ok (vars, ts1) =>
        match eat .COLON ts1 with
        | .ok ts2 =>
          match type_spec ts2 with
          | .ok (type_node, ts3) =>
            .ok ((AST.Var t :: vars).map (fun v => AST.VarDecl v type_node), ts3)
          | .error e => .error e
        | .error e => .error e
      | .error e => .error e
    else .error .invalid
  | [] => .error .invalid

mutual

/-- Parser.factor: unary sign recursing into factor, integer or real
literal to Num, parenthesized expr, else a variable reference. -/
def factor : Nat → List Token → Except PErr (AST × List Token)
  | 0, _ => .error .noFuel
  | fuel+1, ts =>
    match ts with
    | token :: _ =>
      if token.type = .PLUS then
        match eat .PLUS ts with
        | .ok ts1 =>
          match factor fuel ts1 with
          | .ok (node, ts2) => .ok (.UnaryOp token node, ts2)
          | .error e => .error e
        | .error e => .error e
      else if token.type = .MINUS then
        match eat .MINUS ts with
        | .ok ts1 =>
          match factor fuel ts1 with
          | .ok (node, ts2) => .ok (.UnaryOp token node, ts2)
          | .error e => .error e
        | .error e => .error e
      else if token.type = .INTEGER_CONST then
        match eat .INTEGER_CONST ts with
        | .ok ts1 => .ok (.Num token, ts1)
        | .error e => .error e
      else if token.type = .REAL_CONST then
        match eat .REAL_CONST ts with
        | .ok ts1 => .ok (.Num token, ts1)
        | .error e => .error e
      else if token.type = .LPAREN then
        match eat .LPAREN ts with
        | .ok ts1 =>
          match expr fuel ts1 with
          | .ok (node, ts2) =>
            match eat .RPAREN ts2 with
            | .ok ts3 => .ok (node, ts3)
            | .error e => .error e
          | .error e => .error e
        | .error e => .error e
      else
        variableR ts
    | [] => variableR ts

/-- Parser.term: one factor, then the MUL / INTEGER_DIV / FLOAT_DIV loop. -/
def term : Nat → List Token → Except PErr (AST × List Token)
  | 0, _ => .error .noFuel
  | fuel+1, ts =>
    match factor fuel ts with
    | .ok (node, ts1) => termLoop fuel node ts1
    | .error e => .error e

/-- The while loop of Parser.term: while the lookahead is a multiplicative
operator, eat it, parse a factor, and fold into BinOp with the accumulated
node as left child. -/
def termLoop : Nat → AST → List Token → Except PErr (AST × List Token)
  | 0, _, _ => .error .noFuel
  | fuel+1, node, ts =>
    match ts with
    | token :: _ =>
      if token.type = .MUL ∨ token.type = .INTEGER_DIV ∨ token.type = .FLOAT_DIV then
        match (if token.type = .MUL then eat .MUL ts
               else if token.type = .INTEGER_DIV then eat .INTEGER_DIV ts
               else eat .FLOAT_DIV ts) with
        | .ok ts1 =>
          match factor fuel ts1 with
          | .ok (right, ts2) => termLoop fuel (.BinOp node token right) ts2
          | .error e => .error e
        | .error e => .error e
      else .ok (node, ts)
    | [] => .ok (node, [])

/-- Parser.expr: one term, then the PLUS / MINUS loop. -/
def expr : Nat → List Token → Except PErr (AST × List Token)
  | 0, _ => .error .noFuel
  | fuel+1, ts =>
    match term fuel ts with
    | .ok (node, ts1) => exprLoop fuel node ts1
    | .error e => .error e

/-- The while loop of Parser.expr: while the lookahead is PLUS or MINUS,
eat it, parse a term, and fold into BinOp with the accumulated node as
left child. -/
def exprLoop : Nat → AST → List Token → Except PErr (AST × List Token)
  | 0, _, _ => .error .noFuel
  | fuel+1, node, ts =>
    match ts with
    | token :: _ =>
      if token.type = .PLUS ∨ token.type = .MINUS then
        match (if token.type = .PLUS then eat .PLUS ts
               else eat .MINUS ts) with
        | .ok ts1 =>
          match term fuel ts1 with
          | .ok (right, ts2) => exprLoop fuel (.BinOp node token right) ts2
          | .error e => .error e
        | .error e => .error e
      else .ok (node, ts)
    | [] => .ok (node, [])

/-- Parser.assignment_statement: variable, ASSIGN (the saved operator
token), expr. -/
def assignment_statement : Nat → List Token → Except PErr (AST × List Token)
  | 0, _ => .error .noFuel
  | fuel+1, ts =>
    match variableR ts with
    | .ok (left, ts1) =>
      match ts1 with
      | token :: _ =>
        match eat .ASSIGN ts1 with
        | .ok ts2 =>
          match expr fuel ts2 with
          | .ok (right, ts3) => .ok (.Assign left token right, ts3)
          | .error e => .error e
        | .error e => .error e
      | [] => .error .invalid
    | .error e => .error e

/-- Parser.statement: BEGIN to a nested compound, identifier to an
assignment, anything else to the empty production. -/
def statement : Nat → List Token → Except PErr (AST × List Token)
  | 0, _ => .error .noFuel
  | fuel+1, ts =>
    if peekIs .BEGIN ts then compound_statement fuel ts
    else if peekIs .ID ts then assignment_statement fuel ts
    else .ok (empty, ts)

/-- The while-SEMI loop of Parser.statement_list: while the lookahead is a
semicolon, eat it and append one more statement to the results. -/
def stmtListLoop : Nat → List AST → List Token → Except PErr (List AST × List Token)
  | 0, _, _ => .error .noFuel
  | fuel+1, results, ts =>
    if peekIs .SEMI ts then
      match eat .SEMI ts with
      | .ok ts1 =>
        match statement fuel ts1 with
        | .ok (s, ts2) => stmtListLoop fuel (results ++ [s]) ts2
        | .error e => .error e
      | .error e => .error e
    else .ok (results, ts)

/-- Parser.statement_list: one statement, the semicolon loop, and then the
guard: an identifier as the remaining lookahead is a syntax error. -/
def statement_list : Nat → List Token → Except PErr (List AST × List Token)
  | 0, _ => .error .noFuel
  | fuel+1, ts =>
    match statement fuel ts with
    | .ok (s, ts1) =>
      match stmtListLoop fuel [s] ts1 with
      | .ok (results, ts2) =>
        if peekIs .ID ts2 then .error .invalid else .ok (results, ts2)
      | .error e => .error e
    | .error e => .error e

/-- Parser.compound_statement: BEGIN, a statement_list, END, wrapped in a
Compound whose children are the list. -/
def compound_statement : Nat → List Token → Except PErr (AST × List Token)
  | 0, _ => .error .noFuel
  | fuel+1, ts =>
    match eat .BEGIN ts with
    | .ok ts1 =>
      match statement_list fuel ts1 with
      | .ok (nodes, ts2) =>
        match eat .END ts2 with
        | .ok ts3 => .ok (.Compound nodes, ts3)
        | .error e => .error e
      | .error e => .error e
    | .error e => .error e

/-- The while-ID loop of Parser.declarations: while the lookahead is an
identifier, parse a variable_declaration, eat the semicolon, and extend. -/
def varDeclLoop : Nat → List Token → Except PErr (List AST × List Token)
  | 0, _ => .error .noFuel
  | fuel+1, ts =>
    if peekIs .ID ts then
      match variable_declaration ts with
      | .ok (var_decl, ts1) =>
        match eat .SEMI ts1 with
        | .ok ts2 =>
          match varDeclLoop fuel ts2 with
          | .ok (more, ts3) => .ok (var_decl ++ more, ts3)
          | .error e => .error e
        | .error e => .error e
      | .error e => .error e
    else .ok ([], ts)

/-- The while-PROCEDURE loop of Parser.declarations: eat PROCEDURE, read
the name from the current token, eat ID and SEMI, parse a nested block,
eat the trailing SEMI, and append a ProcedureDecl owning that block. -/
def procLoop : Nat → List AST → List Token → Except PErr (List AST × List Token)
  | 0, _, _ => .error .noFuel
  | fuel+1, acc, ts =>
    if peekIs .PROCEDURE ts then
      match eat .PROCEDURE ts with
      | .ok ts1 =>
        match ts1 with
        | nameTok :: _ =>
          match eat .ID ts1 with
          | .ok ts2 =>
            match eat .SEMI ts2 with
            | .ok ts3 =>
              match block fuel ts3 with
              | .ok (blockNode, ts4) =>
                match eat .SEMI ts4 with
                | .ok ts5 =>
                  procLoop fuel (acc ++ [.ProcedureDecl nameTok.value blockNode]) ts5
                | .error e => .error e
              | .error e => .error e
            | .error e => .error e
          | .error e => .error e
        | [] => .error .invalid
      | .error e => .error e
    else .ok (acc, ts)

/-- Parser.declarations: an optional VAR section (eat VAR, then the
identifier loop), then the procedure loop over the accumulated list. -/
def declarations : Nat → List Token → Except PErr (List AST × List Token)
  | 0, _ => .error .noFuel
  | fuel+1, ts =>
    if peekIs .VAR ts then
      match eat .VAR ts with
      | .ok ts1 =>
        match varDeclLoop fuel ts1 with
        | .ok (decls, ts2) => procLoop fuel decls ts2
        | .error e => .error e
      | .error e => .error e
    else procLoop fuel [] ts

/-- Parser.block: declarations then compound_statement, combined. -/
def block : Nat → List Token → Except PErr (AST × List Token)
  | 0, _ => .error .noFuel
  | fuel+1, ts =>
    match declarations fuel ts with
    | .ok (decl, ts1) =>
      match compound_statement fuel ts1 with
      | .ok (compound, ts2) => .ok (.Block decl compound, ts2)
      | .error e => .error e
    | .error e => .error e

end

/-- The value attribute read off the Var node returned by Parser.variable. -/
def varValue : AST → Val
  | .Var t => t.value
  | _ => .noneV

/-- Parser.program: PROGRAM, the program-name variable, SEMI, block, DOT. -/
def program : Nat → List Token → Except PErr (AST × List Token)
  | 0, _ => .error .noFuel
  | fuel+1, ts =>
    match eat .PROGRAM ts with
    | .ok ts1 =>
      match variableR ts1 with
      | .ok (v, ts2) =>
        match eat .SEMI ts2 with
        | .ok ts3 =>
          match block fuel ts3 with
          | .ok (block_node, ts4) =>
            match eat .DOT ts4 with
            | .ok ts5 => .ok (.Program (varValue v) block_node, ts5)
            | .error e => .error e
          | .error e => .error e
        | .error e => .error e
      | .error e => .error e
    | .error e => .error e

/-- Parser.parse: run program, then require the lookahead to be EOF. -/
def parse : Nat → List Token → Except PErr AST
  | 0, _ => .error .noFuel
  | fuel+1, ts =>
    match program fuel ts with
    | .ok (root, ts1) =>
      if peekIs .EOF ts1 then .ok root else .error .invalid
    | .error e => .error e

/-- A payload-free token of the given kind. -/
def tok (t : TT) : Token := ⟨t, .noneV⟩

/-- An integer-literal token. -/
def intTok (n : Int) : Token := ⟨.INTEGER_CONST, .intV n⟩

/-- An identifier token. -/
def idTok (s : String) : Token := ⟨.ID, .strV s⟩

/-- Token stream of a block whose declarations nest procedures to depth n:
depth 0 is BEGIN END, depth n+1 wraps PROCEDURE p ; (depth n block) ;
around it, followed by the BEGIN END body of the outer block. -/
def blockToks : Nat → List Token
  | 0 => [tok .BEGIN, tok .END]
  | n+1 => tok .PROCEDURE :: idTok "p" :: tok .SEMI ::
      (blockToks n ++ [tok .SEMI, tok .BEGIN, tok .END])

/-- The Block AST the parser is expected to build for blockToks n. -/
def blockAst : Nat → AST
  | 0 => .Block [] (.Compound [.NoOp])
  | n+1 => .Block [.ProcedureDecl (.strV "p") (blockAst n)] (.Compound [.NoOp])

/-- Nesting depth of ProcedureDecl/Block structures down the first
declaration of each block. -/
def procDepth : AST → Nat
  | .Block (AST.ProcedureDecl _ b :: _) _ => procDepth b + 1
  | _ => 0

theorem statement_skip (fuel : Nat) (t : Token) (ts : List Token)
    (h1 : t.type ≠ .BEGIN) (h2 : t.type ≠ .ID) :
    statement (fuel + 1) (t :: ts) = .ok (.NoOp, t :: ts) := by
  simp [statement, peekIs, h1, h2, empty]

theorem stmtListLoop_skip (fuel : Nat) (acc : List AST) (t : Token) (ts : List Token)
    (h : t.type ≠ .SEMI) :
    stmtListLoop (fuel + 1) acc (t :: ts) = .ok (acc, t :: ts) := by
  simp [stmtListLoop, peekIs, h]

theorem statement_list_skip (fuel : Nat) (t : Token) (ts : List Token)
    (h1 : t.type ≠ .BEGIN) (h2 : t.type ≠ .ID) (h3 : t.type ≠ .SEMI) :
    statement_list (fuel + 2) (t :: ts) = .ok ([.NoOp], t :: ts) := by
  simp [statement_list, statement_skip fuel t ts h1 h2,
    stmtListLoop_skip fuel [AST.NoOp] t ts h3, peekIs, h2]

theorem compound_BE (fuel : Nat) (rest : List Token) :
    compound_statement (fuel + 3) (tok .BEGIN :: tok .END :: rest) =
      .ok (.Compound [.NoOp], rest) := by
  have hs := statement_list_skip fuel (tok .END) rest
    (by decide) (by decide) (by decide)
  simp only [tok] at hs
  simp [compound_statement, eat, tok, hs]

theorem procLoop_skip (fuel : Nat) (acc : List AST) (t : Token) (ts : List Token)
    (h : t.type ≠ .PROCEDURE) :
    procLoop (fuel + 1) acc (t :: ts) = .ok (acc, t :: ts) := by
  simp [procLoop, peekIs, h]

theorem declarations_skip (fuel : Nat) (t : Token) (ts : List Token)
    (h1 : t.type ≠ .VAR) (h2 : t.type ≠ .PROCEDURE) :
    declarations (fuel + 2) (t :: ts) = .ok ([], t :: ts) := by
  simp [declarations, peekIs, h1, procLoop_skip fuel [] t ts h2]

/-- Token stream of the expression 2 + 3 * 4 followed by end-of-input. -/
def c1Toks : List Token := [intTok 2, tok .PLUS, intTok 3, tok .MUL, intTok 4, tok .EOF]

/-- Claim C1: parsing 2 + 3 * 4 with expr yields
BinOp(Num 2, Plus, BinOp(Num 3, Mul, Num 4)) and never the left-grouped
BinOp(BinOp(Num 2, Plus, Num 3), Mul, Num 4): the multiplicative operators
handled in term bind tighter than the additive ones handled in expr. -/
theorem c1_precedence :
    expr 10 c1Toks =
      .ok (.BinOp (.Num (intTok 2)) (tok .PLUS)
            (.BinOp (.Num (intTok 3)) (tok .MUL) (.Num (intTok 4))), [tok .EOF])
    ∧ ∀ rest, expr 10 c1Toks ≠
      .ok (.BinOp (.BinOp (.Num (intTok 2)) (tok .PLUS) (.Num (intTok 3)))
            (tok .MUL) (.Num (intTok 4)), rest) := by
  have base : expr 10 c1Toks =
      .ok (.BinOp (.Num (intTok 2)) (tok .PLUS)
            (.BinOp (.Num (intTok 3)) (tok .MUL) (.Num (intTok 4))), [tok .EOF]) := rfl
  refine ⟨base, ?_⟩
  intro rest h
  rw [base] at h
  simp at h

/-- Witness for C1 at the concrete remaining stream. -/
theorem c1_precedence_witness :
    expr 10 c1Toks ≠
      .ok (.BinOp (.BinOp (.Num (intTok 2)) (tok .PLUS) (.Num (intTok 3)))
            (tok .MUL) (.Num (intTok 4)), [tok .EOF]) :=
  c1_precedence.2 [tok .EOF]

/-- Token stream of the expression 8 - 3 - 2 followed by end-of-input. -/
def c2Toks : List Token := [intTok 8, tok .MINUS, intTok 3, tok .MINUS, intTok 2, tok .EOF]

/-- Claim C2: 8 - 3 - 2 parses to the left-leaning tree
BinOp(BinOp(Num 8, Minus, Num 3), Minus, Num 2), and in general each
iteration of the expr loop (resp. the term loop) folds the accumulated node
in as the left child of the new BinOp. -/
theorem c2_left_assoc :
    expr 10 c2Toks =
      .ok (.BinOp (.BinOp (.Num (intTok 8)) (tok .MINUS) (.Num (intTok 3)))
            (tok .MINUS) (.Num (intTok 2)), [tok .EOF])
    ∧ (∀ (fuel : Nat) (node : AST) (t : Token) (ts : List Token) (rhs : AST) (ts2 : List Token),
        t.type = .PLUS ∨ t.type = .MINUS →
        term fuel ts = .ok (rhs, ts2) →
        exprLoop (fuel + 1) node (t :: ts) = exprLoop fuel (.BinOp node t rhs) ts2)
    ∧ (∀ (fuel : Nat) (node : AST) (t : Token) (ts : List Token) (rhs : AST) (ts2 : List Token),
        t.type = .MUL ∨ t.type = .INTEGER_DIV ∨ t.type = .FLOAT_DIV →
        factor fuel ts = .ok (rhs, ts2) →
        termLoop (fuel + 1) node (t :: ts) = termLoop fuel (.BinOp node t rhs) ts2) := by
  refine ⟨rfl, ?_, ?_⟩
  · intro fuel node t ts rhs ts2 hop hterm
    rcases hop with h | h <;> simp [exprLoop, eat, h, hterm]
  · intro fuel node t ts rhs ts2 hop hfac
    rcases hop with h | h | h <;> simp [termLoop, eat, h, hfac]

/-- Witness for C2: one concrete left-folding step of each loop. -/
theorem c2_left_assoc_witness :
    exprLoop 6 (.Num (intTok 8)) [tok .MINUS, intTok 3, tok .EOF] =
      exprLoop 5 (.BinOp (.Num (intTok 8)) (tok .MINUS) (.Num (intTok 3))) [tok .EOF]
    ∧ termLoop 6 (.Num (intTok 8)) [tok .MUL, intTok 3, tok .EOF] =
      termLoop 5 (.BinOp (.Num (intTok 8)) (tok .MUL) (.Num (intTok 3))) [tok .EOF] :=
  ⟨c2_left_assoc.2.1 5 (.Num (intTok 8)) (tok .MINUS) [intTok 3, tok .EOF]
      (.Num (intTok 3)) [tok .EOF] (Or.inr rfl) rfl,
   c2_left_assoc.2.2 5 (.Num (intTok 8)) (tok .MUL) [intTok 3, tok .EOF]
      (.Num (intTok 3)) [tok .EOF] (Or.inl rfl) rfl⟩

/-- Claim C4: parse runs program and then requires the lookahead to be the
end-of-input token; if any other token remains it fails with the syntax
error instead of returning the Program node, and with EOF remaining it
returns the root. -/
theorem c4_trailing_garbage :
    ∀ (fuel : Nat) (ts : List Token) (root : AST) (t : Token) (rest : List Token),
      program fuel ts = .ok (root, t :: rest) →
      (t.type ≠ .EOF → parse (fuel + 1) ts = .error .invalid)
      ∧ (t.type = .EOF → parse (fuel + 1) ts = .ok root) := by
  intro fuel ts root t rest h
  constructor <;> intro ht <;> simp [parse, h, peekIs, ht]

/-- Witness for C4: a complete program followed by a stray identifier. -/
theorem c4_trailing_garbage_witness :
    parse 21 [tok .PROGRAM, idTok "p", tok .SEMI, tok .BEGIN, tok .END,
      tok .DOT, idTok "x", tok .EOF] = .error .invalid :=
  (c4_trailing_garbage 20
    [tok .PROGRAM, idTok "p", tok .SEMI, tok .BEGIN, tok .END, tok .DOT, idTok "x", tok .EOF]
    (.Program (.strV "p") (.Block [] (.Compound [.NoOp])))
    (idTok "x") [tok .EOF] rfl).1 (by decide)

/-- Claim C5: the eat primitive, for every parser state and kind: on a
matching lookahead it advances the stream by exactly one token, otherwise it
fails with the syntax error and consumes nothing. -/
theorem c5_eat_contract :
    ∀ (t : Token) (ts : List Token) (k : TT),
      (t.type = k → eat k (t :: ts) = .ok ts)
      ∧ (t.type ≠ k → eat k (t :: ts) = .error .invalid) := by
  intro t ts k
  constructor
  · intro h; simp [eat, h]
  · intro h; simp [eat, h]

/-- Witness for C5: both branches at concrete tokens. -/
theorem c5_eat_contract_witness :
    (eat .ID (idTok "a" :: [tok .EOF]) = .ok [tok .EOF])
    ∧ (eat .SEMI (idTok "a" :: [tok .EOF]) = .error .invalid) :=
  ⟨(c5_eat_contract (idTok "a") [tok .EOF] .ID).1 rfl,
   (c5_eat_contract (idTok "a") [tok .EOF] .SEMI).2 (by decide)⟩

/-- Claim C10: a VAR keyword immediately followed by a non-identifier is
accepted: the var loop runs zero times, declarations returns the empty
list, and a whole program with the block VAR BEGIN END parses. -/
theorem c10_var_without_decls :
    declarations 10 [tok .VAR, tok .BEGIN, tok .END, tok .EOF] =
      .ok ([], [tok .BEGIN, tok .END, tok .EOF])
    ∧ parse 20 [tok .PROGRAM, idTok "p", tok .SEMI, tok .VAR, tok .BEGIN,
        tok .END, tok .DOT, tok .EOF] =
      .ok (.Program (.strV "p") (.Block [] (.Compound [.NoOp]))) :=
  ⟨rfl, rfl⟩

theorem stmtListLoop_extends :
    ∀ (fuel : Nat) (acc : List AST) (ts : List Token) (res : List AST) (ts2 : List Token),
      stmtListLoop fuel acc ts = .ok (res, ts2) → ∃ extra, res = acc ++ extra := by
  intro fuel
  induction fuel with
  | zero =>
    intro acc ts res ts2 h
    simp [stmtListLoop] at h
  | succ f ih =>
    intro acc ts res ts2 h
    simp only [stmtListLoop] at h
    split at h
    · split at h
      · split at h
        · rename_i s ts3 hstmt
          obtain ⟨extra, he⟩ := ih _ _ _ _ h
          exact ⟨s :: extra, by simp [he]⟩
        · simp at h
      · simp at h
    · refine ⟨[], ?_⟩
      have : acc = res ∧ ts = ts2 := by simpa using h
      simp [this.1]

/-- Token stream of BEGIN a := 1 b := 2 END, missing the semicolon. -/
def c3Bad : List Token :=
  [tok .BEGIN, idTok "a", tok .ASSIGN, intTok 1,
   idTok "b", tok .ASSIGN, intTok 2, tok .END, tok .EOF]

/-- Claim C3: two statements juxtaposed without a separating semicolon make
parsing fail: the concrete compound BEGIN a := 1 b := 2 END fails, and in
general, whenever the statement and semicolon loop of statement_list has
finished and an identifier is the lookahead, the rule fails with the syntax
error rather than accepting. -/
theorem c3_missing_semi :
    compound_statement 12 c3Bad = .error .invalid
    ∧ ∀ (fuel : Nat) (ts : List Token) (s : AST) (ts1 : List Token)
        (results : List AST) (ts2 : List Token),
        statement fuel ts = .ok (s, ts1) →
        stmtListLoop fuel [s] ts1 = .ok (results, ts2) →
        peekIs .ID ts2 = true →
        statement_list (fuel + 1) ts = .error .invalid := by
  refine ⟨rfl, ?_⟩
  intro fuel ts s ts1 results ts2 h1 h2 h3
  simp [statement_list, h1, h2, h3]

/-- Witness for C3: the statement list a := 1 b := 2 fails on the stray b. -/
theorem c3_missing_semi_witness :
    statement_list 12 [idTok "a", tok .ASSIGN, intTok 1,
      idTok "b", tok .ASSIGN, intTok 2, tok .END, tok .EOF] = .error .invalid :=
  c3_missing_semi.2 11
    [idTok "a", tok .ASSIGN, intTok 1, idTok "b", tok .ASSIGN, intTok 2, tok .END, tok .EOF]
    (.Assign (.Var (idTok "a")) (tok .ASSIGN) (.Num (intTok 1)))
    [idTok "b", tok .ASSIGN, intTok 2, tok .END, tok .EOF]
    [.Assign (.Var (idTok "a")) (tok .ASSIGN) (.Num (intTok 1))]
    [idTok "b", tok .ASSIGN, intTok 2, tok .END, tok .EOF]
    rfl rfl rfl

/-- Claim C9: the empty compound BEGIN END parses to a Compound whose
children are exactly one NoOp; statement_list always returns at least one
statement, and statement returns NoOp when the lookahead is neither the
begin-keyword nor an identifier. -/
theorem c9_empty_compound :
    compound_statement 10 [tok .BEGIN, tok .END, tok .EOF] =
      .ok (.Compound [.NoOp], [tok .EOF])
    ∧ (∀ (fuel : Nat) (ts : List Token) (res : List AST) (ts2 : List Token),
        statement_list fuel ts = .ok (res, ts2) → res ≠ [])
    ∧ (∀ (fuel : Nat) (t : Token) (ts : List Token),
        t.type ≠ .BEGIN → t.type ≠ .ID →
        statement (fuel + 1) (t :: ts) = .ok (.NoOp, t :: ts)) := by
  refine ⟨rfl, ?_, ?_⟩
  · intro fuel ts res ts2 h
    cases fuel with
    | zero => simp [statement_list] at h
    | succ f =>
      cases hstmt : statement f ts with
      | error e => simp [statement_list, hstmt] at h
      | ok pair =>
        obtain ⟨s, ts1⟩ := pair
        cases hloop : stmtListLoop f [s] ts1 with
        | error e => simp [statement_list, hstmt, hloop] at h
        | ok pair2 =>
          obtain ⟨results, ts2x⟩ := pair2
          by_cases hid : peekIs .ID ts2x = true
          · simp [statement_list, hstmt, hloop, hid] at h
          · simp [statement_list, hstmt, hloop, hid] at h
            obtain ⟨extra, he⟩ := stmtListLoop_extends f [s] ts1 results ts2x hloop
            rw [← h.1, he]
            simp
  · exact fun fuel t ts h1 h2 => statement_skip fuel t ts h1 h2

/-- Witness for C9: the two guarded parts at concrete inputs. -/
theorem c9_empty_compound_witness :
    ([AST.NoOp] ≠ ([] : List AST))
    ∧ statement 5 [tok .END] = .ok (.NoOp, [tok .END]) :=
  ⟨c9_empty_compound.2.1 10 [tok .END] [.NoOp] [tok .END] rfl,
   c9_empty_compound.2.2 4 (tok .END) [] (by decide) (by decide)⟩

/-- Token stream of a VAR section declaring x, y : INTEGER; then BEGIN END. -/
def c6Toks : List Token :=
  [tok .VAR, idTok "x", tok .COMMA, idTok "y", tok .COLON, tok .INTEGER,
   tok .SEMI, tok .BEGIN, tok .END, tok .EOF]

/-- Claim C6: the declaration line x, y : INTEGER; expands to exactly two
VarDecl nodes in source order carrying the same Integer TypeNode, and in
general one declaration line yields one VarDecl per identifier, all built
over one shared type node. -/
theorem c6_multi_var_decl :
    declarations 10 c6Toks =
      .ok ([.VarDecl (.Var (idTok "x")) (.TypeNode (tok .INTEGER)),
            .VarDecl (.Var (idTok "y")) (.TypeNode (tok .INTEGER))],
           [tok .BEGIN, tok .END, tok .EOF])
    ∧ ∀ (ts : List Token) (vds : List AST) (ts2 : List Token),
        variable_declaration ts = .ok (vds, ts2) →
        ∃ (vars : List AST) (type_node : AST),
          vds = vars.map (fun v => AST.VarDecl v type_node) := by
  refine ⟨rfl, ?_⟩
  intro ts vds ts2 h
  cases ts with
  | nil => simp [variable_declaration] at h
  | cons t ts =>
    by_cases hid : t.type = .ID
    · cases hcl : commaLoop ts with
      | error e => simp [variable_declaration, hid, hcl] at h
      | ok pair =>
        obtain ⟨vars, ts1⟩ := pair
        cases hcol : eat .COLON ts1 with
        | error e => simp [variable_declaration, hid, hcl, hcol] at h
        | ok ts2a =>
          cases hty : type_spec ts2a with
          | error e => simp [variable_declaration, hid, hcl, hcol, hty] at h
          | ok pair2 =>
            obtain ⟨type_node, ts3⟩ := pair2
            refine ⟨AST.Var t :: vars, type_node, ?_⟩
            have := h
            simp [variable_declaration, hid, hcl, hcol, hty] at this
            rw [← this.1]
            simp
    · simp [variable_declaration, hid] at h

/-- Witness for C6: the general shape applied to the concrete line. -/
theorem c6_multi_var_decl_witness :
    ∃ (vars : List AST) (type_node : AST),
      [AST.VarDecl (.Var (idTok "x")) (.TypeNode (tok .INTEGER)),
       AST.VarDecl (.Var (idTok "y")) (.TypeNode (tok .INTEGER))] =
        vars.map (fun v => AST.VarDecl v type_node) :=
  c6_multi_var_decl.2
    [idTok "x", tok .COMMA, idTok "y", tok .COLON, tok .INTEGER, tok .SEMI]
    [AST.VarDecl (.Var (idTok "x")) (.TypeNode (tok .INTEGER)),
     AST.VarDecl (.Var (idTok "y")) (.TypeNode (tok .INTEGER))]
    [tok .SEMI] rfl

/-- Right-nesting of a prefix of sign-operator tokens around a base node,
outermost sign first, as in the source text. -/
def signFold (signs : List Token) (base : AST) : AST :=
  signs.foldr (fun t acc => AST.UnaryOp t acc) base

/-- Claim C8: unary plus and minus nest right-associatively through factor
recursing into factor: - -5 parses to UnaryOp(Minus, UnaryOp(Minus, Num 5)),
and in general a prefix of sign tokens before a factor yields one nested
UnaryOp per sign, in source order, around that factor. -/
theorem c8_unary_nesting :
    factor 10 [tok .MINUS, tok .MINUS, intTok 5, tok .EOF] =
      .ok (.UnaryOp (tok .MINUS) (.UnaryOp (tok .MINUS) (.Num (intTok 5))), [tok .EOF])
    ∧ ∀ (signs : List Token) (fuel : Nat) (ts : List Token) (r : AST) (ts2 : List Token),
        (∀ t ∈ signs, t.type = .PLUS ∨ t.type = .MINUS) →
        factor fuel ts = .ok (r, ts2) →
        factor (fuel + signs.length) (signs ++ ts) = .ok (signFold signs r, ts2) := by
  refine ⟨rfl, ?_⟩
  intro signs
  induction signs with
  | nil =>
    intro fuel ts r ts2 _ hf
    simpa [signFold] using hf
  | cons t signs ih =>
    intro fuel ts r ts2 hsigns hf
    have ht := hsigns t (by simp)
    have hrest : ∀ u ∈ signs, u.type = .PLUS ∨ u.type = .MINUS :=
      fun u hu => hsigns u (by simp [hu])
    have ihres := ih fuel ts r ts2 hrest hf
    rcases ht with h | h <;>
      simp [List.length_cons, Nat.add_succ, List.cons_append, factor, eat, h,
        ihres, signFold]

/-- Witness for C8: one minus sign in front of a literal factor. -/
theorem c8_unary_nesting_witness :
    factor 4 ([tok .MINUS] ++ [intTok 7, tok .EOF]) =
      .ok (signFold [tok .MINUS] (.Num (intTok 7)), [tok .EOF]) :=
  c8_unary_nesting.2 [tok .MINUS] 3 [intTok 7, tok .EOF] (.Num (intTok 7)) [tok .EOF]
    (by decide) rfl

/-- Claim C7: for every nesting depth n, the token stream of a block whose
declarations nest procedure declarations to depth n parses (with enough
fuel) to the matching nested ProcedureDecl/Block structure blockAst n,
whose procedure nesting depth is exactly n; the declarations rule consumes
PROCEDURE, the name, SEMI, a recursively parsed full block and a trailing
SEMI, appending a ProcedureDecl owning that nested Block. -/
theorem c7_nested_procedures :
    ∀ (n fuel : Nat) (rest : List Token),
      block (fuel + (3 * n + 5)) (blockToks n ++ rest) = .ok (blockAst n, rest)
      ∧ procDepth (blockAst n) = n := by
  intro n
  induction n with
  | zero =>
    intro fuel rest
    refine ⟨?_, by simp [blockAst, procDepth]⟩
    have hd : declarations (fuel + 4) (tok .BEGIN :: tok .END :: rest) =
        .ok ([], tok .BEGIN :: tok .END :: rest) :=
      declarations_skip (fuel + 2) (tok .BEGIN) (tok .END :: rest)
        (by decide) (by decide)
    have hc : compound_statement (fuel + 4) (tok .BEGIN :: tok .END :: rest) =
        .ok (.Compound [.NoOp], rest) :=
      compound_BE (fuel + 1) rest
    show block ((fuel + 4) + 1) (tok .BEGIN :: tok .END :: rest) =
      .ok (.Block [] (.Compound [.NoOp]), rest)
    simp [block, hd, hc]
  | succ n ih =>
    intro fuel rest
    have hdepth : procDepth (blockAst (n + 1)) = n + 1 := by
      simp [blockAst, procDepth, (ih 0 []).2]
    refine ⟨?_, hdepth⟩
    have hblock := (ih fuel (tok .SEMI :: tok .BEGIN :: tok .END :: rest)).1
    have hproc : procLoop ((fuel + (3 * n + 5)) + 1) []
        (tok .PROCEDURE :: idTok "p" :: tok .SEMI ::
          (blockToks n ++ (tok .SEMI :: tok .BEGIN :: tok .END :: rest))) =
        .ok ([AST.ProcedureDecl (.strV "p") (blockAst n)],
          tok .BEGIN :: tok .END :: rest) := by
      have hskip : procLoop (fuel + (3 * n + 5))
          [AST.ProcedureDecl (.strV "p") (blockAst n)]
          (tok .BEGIN :: tok .END :: rest) =
          .ok ([AST.ProcedureDecl (.strV "p") (blockAst n)],
            tok .BEGIN :: tok .END :: rest) :=
        procLoop_skip (fuel + (3 * n + 4))
          [AST.ProcedureDecl (.strV "p") (blockAst n)]
          (tok .BEGIN) (tok .END :: rest) (by decide)
      simp only [tok, idTok] at hskip hblock ⊢
      simp [procLoop, peekIs, eat, hblock, hskip]
    have hdecl : declarations (fuel + (3 * n + 7))
        (tok .PROCEDURE :: idTok "p" :: tok .SEMI ::
          (blockToks n ++ (tok .SEMI :: tok .BEGIN :: tok .END :: rest))) =
        .ok ([AST.ProcedureDecl (.strV "p") (blockAst n)],
          tok .BEGIN :: tok .END :: rest) := by
      show declarations ((fuel + (3 * n + 6)) + 1)
        (tok .PROCEDURE :: idTok "p" :: tok .SEMI ::
          (blockToks n ++ (tok .SEMI :: tok .BEGIN :: tok .END :: rest))) = _
      simp only [tok, idTok] at hproc ⊢
      simp [declarations, peekIs]
      exact hproc
    have hcomp : compound_statement (fuel + (3 * n + 7))
        (tok .BEGIN :: tok .END :: rest) = .ok (.Compound [.NoOp], rest) :=
      compound_BE (fuel + (3 * n + 4)) rest
    have egoal : fuel + (3 * (n + 1) + 5) = (fuel + (3 * n + 7)) + 1 := by omega
    rw [egoal]
    simp only [blockToks, List.cons_append, List.append_assoc, List.nil_append]
    simp only [block]
    simp only [tok, idTok] at hdecl hcomp ⊢
    rw [hdecl]
    simp [hcomp, blockAst]

/-- Witness for C7: nesting depth two at concrete fuel and remainder. -/
theorem c7_nested_procedures_witness :
    block (0 + (3 * 2 + 5)) (blockToks 2 ++ [tok .EOF]) =
      .ok (blockAst 2, [tok .EOF])
    ∧ procDepth (blockAst 2) = 2 :=
  c7_nested_procedures 2 0 [tok .EOF]
